import Mathlib

/-!
Verification of the onedriver filesystem engine against its specification.

The definitions below are a shallow embedding of the Go source:

* `Inode`, `fsWrite`, `fsRead`, `fsSetAttr`, `fsMknod`, `fsCreate`,
  `fsOpen`, `flushInode` embed the FUSE handler section of
  `src/fs/graph/oauth2.go` (the `package fs` part of that file).
* `uploadRun` and its helpers embed the ID-keyed upload session code in
  `src/fs/upload_session_test.go` (the `package fs` part holding
  `UploadSession`, `uploadChunk`, `cancel` and `Upload`).
* `issuedRanges` / `getItemContentStream` embed `GetItemContentStream`
  from `src/unnamed/part_000`.
* `remoteID` embeds `Filesystem.remoteID` from the same fs section;
  the inode-table indices it manipulates live in cache code that is not
  among the source files, so `InodeTable`, `moveID`, `isLocalID` and
  `verifyChecksum` are modelled from the spec (each marked as such).

Bytes are modelled as `Nat`, byte buffers as `List Nat`; Go's `uint64`
sizes and offsets are `Nat` (no operation here subtracts below zero or
overflows 64 bits on the inputs the kernel can produce), and the one
signed comparison in `Write` is taken over `Int` exactly as Go computes
`int(size) - 1`.
-/

namespace Onedriver

/-- FUSE status codes returned by the handlers (`fuse.OK`, `fuse.ENOENT`, ...). -/
inductive Status where
  | OK
  | ENOENT
  | EBADF
  | EEXIST
  | EROFS
  | ENODATA
  | EREMOTEIO
  | EINVAL
  | EAGAIN
  | EIO
deriving DecidableEq, Repr

/-- In-memory inode, from the Go `Inode`/`DriveItem` pair: identity, name,
parent, metadata, the optional open-file content buffer (`data *[]byte`,
`none` = nil pointer), and the dirty flag. `fileMeta` is the presence of
`DriveItem.File`, `contentHash` the stored hash inside it. -/
structure Inode where
  id : String := ""
  name : String := ""
  parentID : String := ""
  isDir : Bool := false
  size : Nat := 0
  data : Option (List Nat) := none
  hasChanges : Bool := false
  nodeID : Nat := 0
  etag : String := ""
  mtime : Nat := 0
  mode : Nat := 0
  driveType : String := ""
  fileMeta : Bool := false
  contentHash : Option String := none
deriving DecidableEq, Repr

/-- Modelled from the spec: local IDs are "strings with a reserved prefix
(distinguishable from remote IDs by a cheap prefix test)" (§6); the
`isLocalID` helper itself is in cache code absent from the source files. -/
def localIDMarker : String := "local-"

/-- Modelled from the spec (§6): the cheap prefix test on an item ID
(Go's `strings.HasPrefix`, taken over the character lists). -/
def isLocalID (s : String) : Bool := localIDMarker.data.isPrefixOf s.data

/-- Go's `copy(dst[offset:], src)`: writes `min (len src) (len dst - offset)`
bytes of `src` at `offset`, leaving the rest of `dst` unchanged.
(Meaningful for `offset ≤ dst.length`; Go panics on a larger offset.) -/
def goCopy (dst : List Nat) (offset : Nat) (src : List Nat) : List Nat :=
  let k := min src.length (dst.length - offset)
  dst.take offset ++ src.take k ++ dst.drop (offset + k)

/-- `Filesystem.Write` (fs section of `src/fs/graph/oauth2.go`, the locked
region): decides append vs in-place with Go's `offset+nWrite > int(size)-1`
(computed over `Int`, as in Go), rebuilds the buffer, recomputes `Size` as
the buffer length and sets `hasChanges`. `none` models the nil-pointer
dereference that a still-absent buffer would produce (the transparent
re-open that precedes this region is modelled separately by `fsOpen`).
Returns the byte count (`uint32(nWrite)`) and the updated inode;
the status is always `fuse.OK` when no panic occurs. -/
def fsWrite (i : Inode) (offset : Nat) (wdata : List Nat) : Option (Nat × Inode) :=
  match i.data with
  | none => none
  | some buf =>
    let nWrite := wdata.length
    let newBuf : List Nat :=
      if ((offset : Int) + (nWrite : Int) > (i.size : Int) - 1) then
        buf.take offset ++ wdata
      else
        goCopy buf offset wdata
    some (nWrite, { i with data := some newBuf, size := newBuf.length, hasChanges := true })

/-- `Filesystem.Read` (fs section of `src/fs/graph/oauth2.go`): clips
`[offset, offset+len)` to the buffer length (`size := len(*inode.data)`),
refuses `offset > size` with `EINVAL`, and `EAGAIN` when the buffer is
absent even after the transparent re-open (modelled separately). -/
def fsRead (i : Inode) (offset len : Nat) : List Nat × Status :=
  match i.data with
  | none => ([], Status.EAGAIN)
  | some buf =>
    let size := buf.length
    if size < offset then ([], Status.EINVAL)
    else
      let e := min (offset + len) size
      ((buf.drop offset).take (e - offset), Status.OK)

/-- The `S_IFDIR` / `S_IFREG` format bits or-ed into the mode by `SetAttr`. -/
def sIFDIR : Nat := 0x4000

def sIFREG : Nat := 0x8000

/-- The utimens step of `SetAttr`: `in.GetMTime()` valid sets the mtime. -/
def applyMTime (i : Inode) : Option Nat → Inode
  | some m => { i with mtime := m }
  | none => i

/-- The chmod step of `SetAttr`: `in.GetMode()` valid ors the format bit in. -/
def applyMode (i : Inode) : Option Nat → Inode
  | some m =>
    if i.isDir then { i with mode := Nat.lor sIFDIR m }
    else { i with mode := Nat.lor sIFREG m }
  | none => i

/-- The truncate step of `SetAttr`: `in.GetSize()` valid grows the buffer
with zero bytes or shrinks it with a reslice, then records the new size and
sets `hasChanges`. Both branches dereference `*i.data`: `none` models the
nil-pointer panic when the buffer is absent, and the shrink branch's
reslice `(*i.data)[:size]` is out of bounds past the buffer length (also
`none`). -/
def applyTrunc (i : Inode) : Option Nat → Option Inode
  | none => some i
  | some s =>
    if i.size < s then
      match i.data with
      | none => none
      | some buf =>
        some { i with data := some (buf ++ List.replicate (s - i.size) 0),
                      size := s, hasChanges := true }
    else
      match i.data with
      | none => none
      | some buf =>
        if s ≤ buf.length then
          some { i with data := some (buf.take s), size := s, hasChanges := true }
        else none

/-- `Filesystem.SetAttr` (fs section of `src/fs/graph/oauth2.go`): applies
mtime, then mode, then the truncate, in the order the handler does. -/
def fsSetAttr (i : Inode) (mtimeArg modeArg sizeArg : Option Nat) : Option Inode :=
  applyTrunc (applyMode (applyMTime i mtimeArg) modeArg) sizeArg

/-- The reply structure handed back to the kernel (`fuse.EntryOut`); the
kernel zero-initialises it, so an untouched reply carries `nodeID 0`. -/
structure EntryReply where
  nodeID : Nat := 0
deriving DecidableEq, Repr

/-- `Filesystem.Mknod` (fs section of `src/fs/graph/oauth2.go`):
`EBADF` when the node translates to no ID, `ENOENT` when the parent inode
is missing, `EROFS` offline, `EEXIST` when a child of that name already
exists (the reply is left untouched), otherwise inserts a fresh local-ID
inode and fills the reply with its node-ID. -/
def fsMknod (parentID : Option String) (parent : Option Inode) (offline : Bool)
    (existing : Option Inode) (freshNodeID : Nat) : Status × EntryReply :=
  match parentID with
  | none => (Status.EBADF, {})
  | some _ =>
    match parent with
    | none => (Status.ENOENT, {})
    | some _ =>
      if offline then (Status.EROFS, {})
      else
        match existing with
        | some _ => (Status.EEXIST, {})
        | none => (Status.OK, { nodeID := freshNodeID })

/-- The `EEXIST` branch of `Filesystem.Create`: `child.data = nil`,
`child.DriveItem.Size = 0`, `child.hasChanges = true`. -/
def truncateExisting (child : Inode) : Inode :=
  { child with data := none, size := 0, hasChanges := true }

/-- `Filesystem.Create` (fs section of `src/fs/graph/oauth2.go`): reuses
`Mknod`; on `EEXIST` it truncates the existing child and returns `OK`,
returning the reply exactly as `Mknod` left it. The third component is the
existing child's state after the call. -/
def fsCreate (parentID : Option String) (parent : Option Inode) (offline : Bool)
    (existing : Option Inode) (freshNodeID : Nat) : Status × EntryReply × Option Inode :=
  let r := fsMknod parentID parent offline existing freshNodeID
  if r.1 = Status.EEXIST then
    (Status.OK, r.2, existing.map truncateExisting)
  else
    (r.1, r.2, existing)

/-- Modelled from the spec (§4.B): `verify_checksum` "compares against the
stored content hash ...; returns true if equal or if no prior hash was
recorded" — the `Inode.VerifyChecksum` method is in inode code absent from
the source files. -/
def verifyChecksum (i : Inode) (actual : String) : Bool :=
  match i.contentHash with
  | none => true
  | some stored => stored == actual

/-- The hash-validation block of `Filesystem.Open` run on a disk-cached
copy: cached local-ID items never uploaded (`File == nil`) are accepted,
personal drives check SHA-1, business/documentLibrary drives check
QuickXORHash, unknown drive types are accepted with a warning. The hash
functions themselves are parameters of the embedding. -/
def openHashCheck (i : Inode) (hashPersonal hashBusiness : List Nat → String)
    (content : List Nat) : Bool :=
  if isLocalID i.id ∧ i.fileMeta = false then true
  else if i.driveType = "personal" then verifyChecksum i (hashPersonal content)
  else if i.driveType = "business" ∨ i.driveType = "documentLibrary" then
    verifyChecksum i (hashBusiness content)
  else true

/-- The tail of `Filesystem.Open` after the disk cache yielded nothing
usable: local IDs fail with `ENODATA`; remote IDs fetch `GetItemContent`,
install the body and overwrite `Size` with the fetched length. -/
def fsOpenMiss (i : Inode) (fetchResult : Except String (List Nat)) : Status × Inode :=
  if isLocalID i.id then (Status.ENODATA, i)
  else
    match fetchResult with
    | Except.error _ => (Status.EREMOTEIO, i)
    | Except.ok body => (Status.OK, { i with size := body.length, data := some body })

/-- `Filesystem.Open` (fs section of `src/fs/graph/oauth2.go`): refuses
write-flagged opens while offline; reuses an already-present buffer;
otherwise installs the disk-cached copy when its hash checks out
(overwriting `Size` with the cached length), else falls through to
`fsOpenMiss`. `diskContent` is `GetContent id`, `fetchResult` the outcome
of `graph.GetItemContent`. -/
def fsOpen (i : Inode) (writeFlagSet offline : Bool) (diskContent : Option (List Nat))
    (fetchResult : Except String (List Nat))
    (hashPersonal hashBusiness : List Nat → String) : Status × Inode :=
  if writeFlagSet ∧ offline then (Status.EROFS, i)
  else if i.data.isSome then (Status.OK, i)
  else
    match diskContent with
    | some content =>
      if openHashCheck i hashPersonal hashBusiness content then
        (Status.OK, { i with size := content.length, data := some content })
      else fsOpenMiss i fetchResult
    | none => fsOpenMiss i fetchResult

/-- The inode part of `Filesystem.Flush`: the buffer is persisted to the
on-disk content cache (`InsertContent`) and wiped from memory. -/
def flushInode (i : Inode) : Inode := { i with data := none }

/-- Invariant 3 of the spec (§3): an inode's size equals the length of its
content buffer whenever one is present. -/
def SizeInv (i : Inode) : Prop :=
  ∀ buf, i.data = some buf → i.size = buf.length

/-! ## Upload sessions (`package fs` section of `src/fs/upload_session_test.go`) -/

/-- `chunkSize`: 10 MiB chunks for large uploads. -/
def chunkSize : Nat := 10 * 1024 * 1024

/-- Upload states, from the `notStarted/started/complete/errored` constants. -/
inductive UState where
  | notStarted
  | started
  | complete
  | errored
deriving DecidableEq, Repr

/-- One scripted outcome of an HTTP round-trip: the transport failed
(`client.Do` returned an error), or a reply with a status code and body. -/
inductive ChunkResp where
  | transport (msg : String)
  | reply (status : Nat) (body : String)
deriving DecidableEq, Repr

/-- What `uploadChunk` hands back to `Upload`: a non-nil `error` (status
`-1` in Go), or a reply status with its body. -/
inductive ChunkOut where
  | failed (msg : String)
  | got (status : Nat) (body : String)
deriving DecidableEq, Repr

/-- The externally visible actions of an upload, in order: the chunk `PUT`s
(`uploadChunk`), the small-path `PUT`, the backoff log line
`"retrying upload in %ds"` with its computed backoff value, `time.Sleep`
calls, and the best-effort `DELETE` of the upload URL issued by `cancel`. -/
inductive UEvent where
  | putChunk (offset : Nat)
  | putSmall
  | retryMsg (backoff : Nat)
  | sleepSec (n : Nat)
  | deleteURL
deriving DecidableEq, Repr

/-- `UploadSession.isLargeSession`: over 4 MiB. -/
def isLargeSession (size : Nat) : Bool := 4 * 1024 * 1024 < size

/-- `UploadSession.cancel`: a large session issues a best-effort `DELETE`
of the upload URL; a small session does nothing. No state change. -/
def cancelEvents (size : Nat) : List UEvent :=
  if isLargeSession size then [UEvent.deleteURL] else []

/-- Go's `strings.Contains` on character lists. -/
def containsSeq (pat : List Char) : List Char → Bool
  | [] => pat.isEmpty
  | c :: rest => pat.isPrefixOf (c :: rest) || containsSeq pat rest

/-- Go's `strings.Contains(s, pat)`. -/
def strContains (s pat : String) : Bool := containsSeq pat.data s.data

/-- `UploadSession.uploadChunk`: fails before any HTTP when the upload URL
is empty or the offset exceeds the session size; otherwise performs one
`PUT` whose outcome is the next scripted response (`none` = the script is
exhausted, modelled as a transport failure; theorems supply scripts long
enough that this case is never reached). -/
def uploadChunkStep (uploadURL : String) (size offset : Nat) (r : Option ChunkResp) :
    List UEvent × ChunkOut :=
  if uploadURL = "" then ([], ChunkOut.failed "uploadSession UploadURL cannot be empty")
  else if size < offset then ([], ChunkOut.failed "offset cannot be larger than DriveItem size")
  else
    match r with
    | none => ([], ChunkOut.failed "script exhausted")
    | some (ChunkResp.transport msg) => ([UEvent.putChunk offset], ChunkOut.failed msg)
    | some (ChunkResp.reply status body) => ([UEvent.putChunk offset], ChunkOut.got status body)

/-- The per-chunk 5xx retry loop of `UploadSession.Upload`
(`for backoff := 1; status >= 500; backoff *= 2`): while the status is 5xx
it logs the backoff value and immediately re-`PUT`s the chunk — the Go
body contains no `time.Sleep` — doubling `backoff` each iteration; a
non-5xx reply exits with that reply, a transport failure exits with the
error. Returns the events, the exit outcome, and the unconsumed script
(unused by the caller when the outcome is a failure, which aborts). -/
def retryPhase (uploadURL : String) (size offset : Nat) :
    List ChunkResp → Nat → Nat → String → List UEvent × ChunkOut × List ChunkResp
  | sc, backoff, status, body =>
    if 500 ≤ status then
      match sc with
      | [] =>
        let step := uploadChunkStep uploadURL size offset none
        (UEvent.retryMsg backoff :: step.1, step.2, [])
      | r :: rest =>
        let step := uploadChunkStep uploadURL size offset (some r)
        match step.2 with
        | ChunkOut.failed msg =>
          (UEvent.retryMsg backoff :: step.1, ChunkOut.failed msg, rest)
        | ChunkOut.got s b =>
          let next := retryPhase uploadURL size offset rest (backoff * 2) s b
          (UEvent.retryMsg backoff :: step.1 ++ next.1, next.2.1, next.2.2)
    else ([], ChunkOut.got status body, sc)

/-- The chunk loop of `UploadSession.Upload`: for each chunk offset, one
attempt, then the 5xx retry loop; a transport failure (or any non-nil
`uploadChunk` error) cancels the session and aborts with that error,
leaving the state as it was; a 404 errors the session with
"Upload session expired" and no remote delete; any other 4xx errors the
session with the response body; otherwise the next chunk. After the last
chunk the state is set to `complete`. Returns events, final state, the
returned error (`none` = nil) and the unconsumed script. -/
def chunkLoop (uploadURL : String) (size : Nat) :
    List Nat → UState → List ChunkResp → List UEvent × UState × Option String × List ChunkResp
  | [], _, sc => ([], UState.complete, none, sc)
  | i :: rest, st, sc =>
    let offset := i * chunkSize
    let step := uploadChunkStep uploadURL size offset sc.head?
    match step.2 with
    | ChunkOut.failed msg => (step.1 ++ cancelEvents size, st, some msg, sc.tail)
    | ChunkOut.got s b =>
      let retry := retryPhase uploadURL size offset sc.tail 1 s b
      match retry.2.1 with
      | ChunkOut.failed msg => (step.1 ++ retry.1 ++ cancelEvents size, st, some msg, retry.2.2)
      | ChunkOut.got s2 b2 =>
        if s2 = 404 then
          (step.1 ++ retry.1, UState.errored, some "Upload session expired", retry.2.2)
        else if 400 ≤ s2 then
          (step.1 ++ retry.1, UState.errored, some b2, retry.2.2)
        else
          let next := chunkLoop uploadURL size rest st retry.2.2
          (step.1 ++ retry.1 ++ next.1, next.2.1, next.2.2.1, next.2.2.2)

/-- The outcome of one `graph.Put` of the small path, derived from the next
scripted response. Modelled from the spec (§4.A/§7): the client wrapper
`fs/graph.Put` is not among the source files; it surfaces a transport
failure or any final status ≥ 400 as a non-nil error whose text carries the
server's error body. -/
def smallPutOutcome (r : Option ChunkResp) : Option String :=
  match r with
  | none => some "script exhausted"
  | some (ChunkResp.transport msg) => some msg
  | some (ChunkResp.reply status body) => if 400 ≤ status then some body else none

/-- Result of a whole `UploadSession.Upload` run: the events it performed,
the session state it left behind, and the error it returned. -/
structure URun where
  events : List UEvent
  finalState : UState
  err : Option String
deriving DecidableEq, Repr

/-- `math.Ceil(float64(size) / float64(chunkSize))` — the ceiling of
`size / chunkSize`, exact for any size below 2^53, far beyond OneDrive's
file-size limit. -/
def nchunks (size : Nat) : Nat :=
  if size = 0 then 0 else (size - 1) / chunkSize + 1

/-- `UploadSession.Upload`: sets the state to `started`; a small session is
a single `PUT` (retried once after a one-second `time.Sleep` when the error
text contains "resourceModified"), then the state is set to `complete` and,
when the error is non-nil, to `errored`; a large session runs the chunk
loop. The script supplies one response per HTTP round-trip. -/
def uploadRun (uploadURL : String) (size : Nat) (sc : List ChunkResp) : URun :=
  if ¬ isLargeSession size then
    let e1 := smallPutOutcome sc.head?
    match e1 with
    | some m =>
      if strContains m "resourceModified" then
        let e2 := smallPutOutcome (sc.drop 1).head?
        match e2 with
        | some m2 => ⟨[UEvent.putSmall, UEvent.sleepSec 1, UEvent.putSmall], UState.errored, some m2⟩
        | none => ⟨[UEvent.putSmall, UEvent.sleepSec 1, UEvent.putSmall], UState.complete, none⟩
      else ⟨[UEvent.putSmall], UState.errored, some m⟩
    | none => ⟨[UEvent.putSmall], UState.complete, none⟩
  else
    let run := chunkLoop uploadURL size (List.range (nchunks size)) UState.started sc
    ⟨run.1, run.2.1, run.2.2.1⟩

/-! ## Content download (`GetItemContentStream`, `src/unnamed/part_000`) -/

/-- `downloadChunkSize`: 10 MiB byte-range chunks for large downloads. -/
def downloadChunkSize : Nat := 10 * 1024 * 1024

/-- The `Range` headers issued by the multipart loop
(`for i := 0; i < int(item.Size/downloadChunkSize)+1; i++`): the pair
`(start, end)` of `bytes=start-end`, inclusive, for each iteration. -/
def issuedRanges (size : Nat) : List (Nat × Nat) :=
  (List.range (size / downloadChunkSize + 1)).map
    (fun i => (i * downloadChunkSize,
               i * downloadChunkSize + downloadChunkSize - 1))

/-- The multipart loop body: issue each range in order against the server
`serve`, append each reply to the output sink, abort on the first error
returning the bytes written so far together with that error. -/
def streamLoop (serve : Nat × Nat → Except String (List Nat)) :
    List (Nat × Nat) → List Nat × Option String
  | [] => ([], none)
  | r :: rest =>
    match serve r with
    | Except.error e => ([], some e)
    | Except.ok chunk =>
      let (restOut, err) := streamLoop serve rest
      (chunk ++ restOut, err)

/-- `GetItemContentStream` after the metadata fetch produced `size`: a
single un-ranged `Get` (`serveAll`) when `size ≤ downloadChunkSize`,
otherwise the multipart loop over `issuedRanges size`. Returns the bytes
written to the output sink and the error, if any. -/
def getItemContentStream (size : Nat) (serveAll : Except String (List Nat))
    (serve : Nat × Nat → Except String (List Nat)) : List Nat × Option String :=
  if size ≤ downloadChunkSize then
    match serveAll with
    | Except.error e => ([], some e)
    | Except.ok content => (content, none)
  else streamLoop serve (issuedRanges size)

/-- An HTTP byte-range server holding `content`, clipping each inclusive
range `(s, e)` to the content it has: it replies with
`content[s : min (e+1) (len content)]`. -/
def clipServe (content : List Nat) (r : Nat × Nat) : Except String (List Nat) :=
  Except.ok ((content.drop r.1).take (r.2 + 1 - r.1))

/-- The claim's reading of "the issued ranges cover exactly bytes
[0, size)": scanned in order, every range starts inside the file, starts
exactly where the previous one (clipped to the file end) stopped, and the
last one reaches the file end. -/
def coverScan (size : Nat) : Nat → List (Nat × Nat) → Bool
  | cur, [] => cur == size
  | cur, (s, e) :: rest =>
    s == cur && decide (s < size) && coverScan size (min (e + 1) size) rest

/-- Whether a range list covers `[0, size)` exactly, in order. -/
def rangesCoverExactly (rs : List (Nat × Nat)) (size : Nat) : Bool :=
  coverScan size 0 rs

/-- The ranges the multipart loop issues from iteration `i` onward, `k` of
them: an indexing helper for reasoning about `issuedRanges` by induction. -/
def rangesFrom (i k : Nat) : List (Nat × Nat) :=
  (List.range k).map
    (fun j => ((i + j) * downloadChunkSize,
               (i + j) * downloadChunkSize + downloadChunkSize - 1))

/-! ## The inode table and `Filesystem.remoteID` -/

/-- Modelled from the spec (§3, §4.C): the inode table's three index maps —
ID → inode (the inode itself abstracted to a slot number), (parent-ID,
lowercased child name) → child-ID, and kernel node-ID → ID. The cache code
holding these maps is not among the source files. -/
structure InodeTable where
  byID : List (String × Nat)
  childIdx : List ((String × String) × String)
  byNodeID : List (Nat × String)
deriving DecidableEq, Repr

/-- Modelled from the spec (§4.C, §8 property 3): `move_id(old, new)` is
atomic across all three indices — afterwards no lookup by `old` succeeds,
every index maps to the new ID and node-IDs are preserved. -/
def moveID (t : InodeTable) (old new : String) : InodeTable :=
  { byID := t.byID.map (fun p => if p.1 = old then (new, p.2) else p)
    childIdx := t.childIdx.map (fun p => if p.2 = old then (p.1, new) else p)
    byNodeID := t.byNodeID.map (fun p => if p.2 = old then (p.1, new) else p) }

/-- Result of `Filesystem.remoteID`: the returned ID and error, plus the
inode table and inode as the call leaves them. -/
structure RemoteIDOut where
  id : String
  err : Option String
  tbl : InodeTable
  ino : Inode
deriving Repr

/-- `Filesystem.remoteID` (fs section of `src/fs/graph/oauth2.go`):
directories keep their ID; a local-ID file with a non-empty auth token is
uploaded — on an error containing "nameAlreadyExists" the parent's children
are fetched and the first child with the same name donates its remote ID
via `MoveID`; on upload success `hasChanges` is cleared, the etag adopted
and the IDs exchanged. `sessionCreate` is the outcome of
`NewUploadSession`, `uploadResult` of `session.Upload` (ID and etag on
success), `childrenResult` of `graph.GetItemChildren` as (name, ID) pairs. -/
def remoteID (tbl : InodeTable) (i : Inode) (tokenNonEmpty : Bool)
    (sessionCreate : Option String)
    (uploadResult : Except String (String × String))
    (childrenResult : Except String (List (String × String))) : RemoteIDOut :=
  if i.isDir then ⟨i.id, none, tbl, i⟩
  else
    let originalID := i.id
    if isLocalID originalID ∧ tokenNonEmpty then
      match sessionCreate with
      | some e => ⟨originalID, some e, tbl, i⟩
      | none =>
        match uploadResult with
        | Except.error e =>
          if strContains e "nameAlreadyExists" then
            match childrenResult with
            | Except.error e2 => ⟨originalID, some e2, tbl, i⟩
            | Except.ok children =>
              match children.find? (fun c => c.1 == i.name) with
              | some c => ⟨c.2, none, moveID tbl originalID c.2, i⟩
              | none => ⟨originalID, some e, tbl, i⟩
          else ⟨originalID, some e, tbl, i⟩
        | Except.ok (newID, newETag) =>
          ⟨newID, none, moveID tbl originalID newID,
            { i with hasChanges := false, etag := newETag }⟩
    else ⟨originalID, none, tbl, i⟩

/-! ## Theorems -/

/-- C1: for a write on a file inode whose content buffer is present (with the
size invariant holding and the offset within the file), the resulting buffer
is `buf[0:offset] ++ bytes` when `offset + len(bytes)` exceeds the size and
the in-place overwrite `buf[0:offset] ++ bytes ++ buf[offset+len:]`
otherwise — in particular at the boundary `offset + len(bytes) = size` the
result is exactly the in-place overwrite; afterwards the size equals the new
buffer length and `hasChanges` is set. -/
theorem write_append_or_overwrite (i : Inode) (buf wdata : List Nat) (offset : Nat)
    (hbuf : i.data = some buf) (hinv : buf.length = i.size) (hoff : offset ≤ i.size) :
    ∃ i2, fsWrite i offset wdata = some (wdata.length, i2) ∧
      i2.hasChanges = true ∧
      (i.size < offset + wdata.length → i2.data = some (buf.take offset ++ wdata)) ∧
      (offset + wdata.length ≤ i.size →
        i2.data = some (buf.take offset ++ wdata ++ buf.drop (offset + wdata.length))) ∧
      (∀ b, i2.data = some b → i2.size = b.length) := by
  simp only [fsWrite, hbuf]
  by_cases hc : i.size ≤ offset + wdata.length
  · have hcond : ((offset : Int) + (wdata.length : Int) > (i.size : Int) - 1) := by omega
    rw [if_pos hcond]
    refine ⟨_, rfl, rfl, fun _ => rfl, ?_, ?_⟩
    · intro hle
      have hEq : offset + wdata.length = i.size := le_antisymm hle hc
      have hdrop : buf.drop (offset + wdata.length) = [] := by
        apply List.drop_eq_nil_of_le
        omega
      simp [hdrop]
    · intro b hb
      cases hb
      rfl
  · have hcond : ¬ ((offset : Int) + (wdata.length : Int) > (i.size : Int) - 1) := by omega
    rw [if_neg hcond]
    have hk : min wdata.length (buf.length - offset) = wdata.length := by omega
    refine ⟨_, rfl, rfl, ?_, ?_, ?_⟩
    · intro h
      omega
    · intro _
      simp only [goCopy, hk, List.take_length]
    · intro b hb
      simp only [goCopy] at hb
      cases hb
      rfl

/-- Witness for C1 at the boundary case: a 3-byte file, `write(1, [7,7])`
ends exactly at the file end and yields the in-place overwrite `[1,7,7]`. -/
theorem write_append_or_overwrite_witness :
    ∃ i2, fsWrite { id := "local-w", size := 3, data := some [1, 2, 3] } 1 [7, 7] =
        some (2, i2) ∧ i2.data = some [1, 7, 7] ∧ i2.size = 3 ∧ i2.hasChanges = true := by
  obtain ⟨i2, h1, h2, _, h4, h5⟩ :=
    write_append_or_overwrite { id := "local-w", size := 3, data := some [1, 2, 3] }
      [1, 2, 3] [7, 7] 1 rfl rfl (by decide)
  have hdata := h4 (by decide)
  exact ⟨i2, h1, by simpa using hdata, by simpa using h5 _ hdata, h2⟩

theorem applyMTime_data (i : Inode) (a : Option Nat) : (applyMTime i a).data = i.data := by
  cases a <;> rfl

theorem applyMTime_size (i : Inode) (a : Option Nat) : (applyMTime i a).size = i.size := by
  cases a <;> rfl

theorem applyMode_data (i : Inode) (a : Option Nat) : (applyMode i a).data = i.data := by
  cases a with
  | none => rfl
  | some m =>
    simp only [applyMode]
    split <;> rfl

theorem applyMode_size (i : Inode) (a : Option Nat) : (applyMode i a).size = i.size := by
  cases a with
  | none => rfl
  | some m =>
    simp only [applyMode]
    split <;> rfl

/-- The truncate step keeps invariant 3: a successful `applyTrunc` on an
inode whose size matches its buffer produces an inode whose size matches
its buffer. -/
theorem applyTrunc_sizeInv (j : Inode) (a : Option Nat) (i2 : Inode)
    (hinv : SizeInv j) (h : applyTrunc j a = some i2) : SizeInv i2 := by
  cases a with
  | none =>
    simp only [applyTrunc, Option.some.injEq] at h
    subst h
    exact hinv
  | some s =>
    cases hd : j.data with
    | none =>
      simp only [applyTrunc, hd] at h
      split at h <;> cases h
    | some buf =>
      have hlen := hinv buf hd
      simp only [applyTrunc, hd] at h
      by_cases hlt : j.size < s
      · rw [if_pos hlt] at h
        simp only [Option.some.injEq] at h
        subst h
        intro b hb
        simp only [Option.some.injEq] at hb
        subst hb
        simp only [List.length_append, List.length_replicate]
        omega
      · rw [if_neg hlt] at h
        by_cases hle : s ≤ buf.length
        · rw [if_pos hle] at h
          simp only [Option.some.injEq] at h
          subst h
          intro b hb
          simp only [Option.some.injEq] at hb
          subst hb
          simp only [List.length_take]
          omega
        · rw [if_neg hle] at h
          cases h

/-- C2: invariant 3 — size equals buffer length whenever the buffer is
present — is preserved by every buffer- or size-touching operation: write,
setattr (incl. truncate), open (cached or fetched install), the
create-truncate of an existing child, and flush. -/
theorem size_invariant_preserved (i : Inode) (offset : Nat) (wdata : List Nat)
    (mtimeArg modeArg sizeArg : Option Nat)
    (writeFlagSet offline : Bool) (diskContent : Option (List Nat))
    (fetchResult : Except String (List Nat)) (hashP hashB : List Nat → String)
    (hinv : SizeInv i) :
    (∀ n i2, fsWrite i offset wdata = some (n, i2) → SizeInv i2) ∧
    (∀ i2, fsSetAttr i mtimeArg modeArg sizeArg = some i2 → SizeInv i2) ∧
    SizeInv (fsOpen i writeFlagSet offline diskContent fetchResult hashP hashB).2 ∧
    SizeInv (truncateExisting i) ∧
    SizeInv (flushInode i) := by
  refine ⟨?_, ?_, ?_, ?_, ?_⟩
  · intro n i2 h
    cases hd : i.data with
    | none => simp [fsWrite, hd] at h
    | some buf =>
      simp only [fsWrite, hd, Option.some.injEq, Prod.mk.injEq] at h
      obtain ⟨-, h2⟩ := h
      subst h2
      intro b hb
      simp only [Option.some.injEq] at hb
      subst hb
      rfl
  · intro i2 h
    apply applyTrunc_sizeInv _ _ _ _ h
    intro b hb
    rw [applyMode_data, applyMTime_data] at hb
    rw [applyMode_size, applyMTime_size]
    exact hinv b hb
  · unfold fsOpen
    split
    · exact hinv
    · split
      · exact hinv
      · split
        · split
          · intro b hb
            simp only [Option.some.injEq] at hb
            subst hb
            rfl
          · unfold fsOpenMiss
            split
            · exact hinv
            · split
              · exact hinv
              · intro b hb
                simp only [Option.some.injEq] at hb
                subst hb
                rfl
        · unfold fsOpenMiss
          split
          · exact hinv
          · split
            · exact hinv
            · intro b hb
              simp only [Option.some.injEq] at hb
              subst hb
              rfl
  · intro b hb
    cases hb
  · intro b hb
    cases hb

/-- Witness for C2 at a concrete inode satisfying the invariant. -/
theorem size_invariant_preserved_witness :
    (∀ n i2, fsWrite { id := "w2", size := 2, data := some [5, 6] } 0 [9] = some (n, i2) →
      SizeInv i2) ∧
    SizeInv (truncateExisting { id := "w2", size := 2, data := some [5, 6] }) := by
  have hinv : SizeInv { id := "w2", size := 2, data := some [5, 6] } := by
    intro b hb
    cases hb
    rfl
  obtain ⟨h1, -, -, h4, -⟩ :=
    size_invariant_preserved { id := "w2", size := 2, data := some [5, 6] } 0 [9]
      none none none false false none (Except.ok []) (fun _ => "") (fun _ => "") hinv
  exact ⟨h1, h4⟩

/-- C10: a size-changing setattr dereferences the content buffer
unconditionally — whenever the buffer is absent, every supplied size (grow
or shrink alike) reaches the nil-pointer dereference, modelled as `none`. -/
theorem setattr_truncate_nil_deref (i : Inode) (mtimeArg modeArg : Option Nat) (s : Nat)
    (hd : i.data = none) :
    fsSetAttr i mtimeArg modeArg (some s) = none := by
  unfold fsSetAttr
  have hdata : (applyMode (applyMTime i mtimeArg) modeArg).data = none := by
    rw [applyMode_data, applyMTime_data, hd]
  simp only [applyTrunc, hdata]
  split <;> rfl

/-- Witness for C10: a closed, 5-byte-sized inode with no buffer panics for
a growing size (10) and for a shrinking size (2) alike. -/
theorem setattr_truncate_nil_deref_witness :
    fsSetAttr { id := "local-x", size := 5 } none none (some 10) = none ∧
    fsSetAttr { id := "local-x", size := 5 } none none (some 2) = none :=
  ⟨setattr_truncate_nil_deref { id := "local-x", size := 5 } none none 10 rfl,
   setattr_truncate_nil_deref { id := "local-x", size := 5 } none none 2 rfl⟩

/-- C3: evaluating `Create` on a parent that already holds a child "a.txt"
with node-ID 7: the call succeeds, the child is truncated (buffer dropped,
size 0, `hasChanges` set) and its node-ID 7 is preserved — but the reply
handed back to the kernel is left zero-initialised (`nodeID = 0`) rather
than identifying node 7, contradicting the handler's own comment that it
returns the existing file inode. -/
theorem create_existing_child_eval :
    fsCreate (some "root") (some { id := "root", isDir := true }) false
        (some { id := "remote123", name := "a.txt", size := 3,
                data := some [9, 9, 9], nodeID := 7 }) 42 =
      (Status.OK, { nodeID := 0 },
        some { id := "remote123", name := "a.txt", size := 0,
               data := none, hasChanges := true, nodeID := 7 }) ∧
    (fsCreate (some "root") (some { id := "root", isDir := true }) false
        (some { id := "remote123", name := "a.txt", size := 3,
                data := some [9, 9, 9], nodeID := 7 }) 42).2.1.nodeID ≠ 7 := by
  constructor
  · rfl
  · decide

/-- C8: a read on an inode with a present content buffer returns exactly
the bytes of `[offset, min(offset+len, size))` with `OK` when the offset is
at most the buffer length, and fails with `EINVAL` returning no bytes when
the offset exceeds it. -/
theorem read_clipped_slice (i : Inode) (buf : List Nat) (offset len : Nat)
    (hd : i.data = some buf) :
    fsRead i offset len =
      if offset ≤ buf.length then
        ((buf.take (min (offset + len) buf.length)).drop offset, Status.OK)
      else ([], Status.EINVAL) := by
  simp only [fsRead, hd]
  by_cases hle : offset ≤ buf.length
  · rw [if_neg (by omega), if_pos hle, List.drop_take]
  · rw [if_pos (by omega), if_neg hle]

/-- Witness for C8: a 4-byte buffer read at offset 1 with length 2 yields
bytes [1, 3) (clipping not needed), and at offset 3 with length 5 yields
the clipped final byte. -/
theorem read_clipped_slice_witness :
    fsRead { id := "r", size := 4, data := some [10, 11, 12, 13] } 1 2 =
      ([11, 12], Status.OK) ∧
    fsRead { id := "r", size := 4, data := some [10, 11, 12, 13] } 3 5 =
      ([13], Status.OK) ∧
    fsRead { id := "r", size := 4, data := some [10, 11, 12, 13] } 5 1 =
      ([], Status.EINVAL) := by
  refine ⟨?_, ?_, ?_⟩ <;>
    rw [read_clipped_slice { id := "r", size := 4, data := some [10, 11, 12, 13] }
      [10, 11, 12, 13] _ _ rfl] <;> decide

/-- C7: opening an inode with no memory buffer and no valid cached disk
copy fails with `ENODATA` when the ID is a local-ID; for a remote ID the
fetched remote content is installed as the buffer and the size is set to
the fetched length (not the server-advertised size). -/
theorem open_miss_nodata_or_fetch (i : Inode) (writeFlagSet offline : Bool)
    (diskContent : Option (List Nat)) (fetchResult : Except String (List Nat))
    (hashP hashB : List Nat → String)
    (hnobuf : i.data = none)
    (hnocache : diskContent = none ∨
      ∃ c, diskContent = some c ∧ openHashCheck i hashP hashB c = false)
    (hflags : ¬ (writeFlagSet ∧ offline)) :
    (isLocalID i.id = true →
      fsOpen i writeFlagSet offline diskContent fetchResult hashP hashB =
        (Status.ENODATA, i)) ∧
    (isLocalID i.id = false → ∀ body, fetchResult = Except.ok body →
      fsOpen i writeFlagSet offline diskContent fetchResult hashP hashB =
        (Status.OK, { i with size := body.length, data := some body })) := by
  have hmiss : fsOpen i writeFlagSet offline diskContent fetchResult hashP hashB =
      fsOpenMiss i fetchResult := by
    unfold fsOpen
    rw [if_neg hflags, hnobuf]
    rcases hnocache with hnone | ⟨c, hc, hfail⟩
    · rw [hnone]
      simp
    · rw [hc]
      simp [hfail]
  constructor
  · intro hlocal
    rw [hmiss]
    unfold fsOpenMiss
    rw [if_pos hlocal]
  · intro hremote body hbody
    rw [hmiss]
    unfold fsOpenMiss
    rw [if_neg (by simp [hremote]), hbody]

/-- Witness for C7: a remote-ID inode whose advertised size is a wrong 99,
no buffer and no cached copy; the fetch returns 3 bytes and the open
installs them, overriding the size with 3. -/
theorem open_miss_nodata_or_fetch_witness :
    fsOpen { id := "remoteA", size := 99 } false false none (Except.ok [1, 2, 3])
        (fun _ => "") (fun _ => "") =
      (Status.OK, { id := "remoteA", size := 3, data := some [1, 2, 3] }) := by
  have h :=
    (open_miss_nodata_or_fetch { id := "remoteA", size := 99 } false false none
      (Except.ok [1, 2, 3]) (fun _ => "") (fun _ => "") rfl (Or.inl rfl)
      (by simp)).2 (by decide) [1, 2, 3] rfl
  simpa using h

/-- C4: evaluating a large (12 MiB, two-chunk) upload whose first chunk
attempt receives HTTP 500 and whose retry receives 200: the run logs the
1-second backoff message and immediately re-`PUT`s chunk 0 — it performs no
`time.Sleep` at all (the filtered sleep list is empty) — then uploads chunk
1 and completes. -/
theorem chunk_retry_immediate_eval :
    uploadRun "https://u" 12582912
        [ChunkResp.reply 500 "", ChunkResp.reply 200 "", ChunkResp.reply 201 ""] =
      ⟨[UEvent.putChunk 0, UEvent.retryMsg 1, UEvent.putChunk 0,
        UEvent.putChunk 10485760], UState.complete, none⟩ ∧
    (uploadRun "https://u" 12582912
        [ChunkResp.reply 500 "", ChunkResp.reply 200 "", ChunkResp.reply 201 ""]).events.filter
      (fun e => match e with | UEvent.sleepSec _ => true | _ => false) = [] := by
  constructor
  · decide
  · decide

theorem uploadChunkStep_no_delete (url : String) (size off : Nat) (r : Option ChunkResp) :
    UEvent.deleteURL ∉ (uploadChunkStep url size off r).1 := by
  unfold uploadChunkStep
  split
  · simp
  · split
    · simp
    · rcases r with _ | r
      · simp
      · rcases r with m | ⟨s, b⟩ <;> simp

theorem retryPhase_no_delete (url : String) (size off : Nat) :
    ∀ (sc : List ChunkResp) (backoff status : Nat) (body : String),
      UEvent.deleteURL ∉ (retryPhase url size off sc backoff status body).1 := by
  intro sc
  induction sc with
  | nil =>
    intro backoff status body
    have hstep := uploadChunkStep_no_delete url size off none
    simp only [retryPhase]
    split
    · intro hmem
      rcases List.mem_cons.mp hmem with h | h
      · cases h
      · exact hstep h
    · simp
  | cons r rest ih =>
    intro backoff status body
    have hstep := uploadChunkStep_no_delete url size off (some r)
    simp only [retryPhase]
    split
    · cases h2 : (uploadChunkStep url size off (some r)).2 with
      | failed msg =>
        intro hmem
        rcases List.mem_cons.mp hmem with h | h
        · cases h
        · exact hstep h
      | got s b =>
        intro hmem
        rcases List.mem_cons.mp hmem with h | h
        · cases h
        · rcases List.mem_append.mp h with h3 | h3
          · exact hstep h3
          · exact ih (backoff * 2) s b h3
    · simp

/-- A cancelled chunk loop leaves the session state exactly as it entered:
whenever the loop's event trace carries the `DELETE` issued by `cancel`,
the state it hands back is the `st` it was given. -/
theorem chunkLoop_cancel_state (url : String) (size : Nat) :
    ∀ (chunks : List Nat) (st : UState) (sc : List ChunkResp),
      UEvent.deleteURL ∈ (chunkLoop url size chunks st sc).1 →
      (chunkLoop url size chunks st sc).2.1 = st := by
  intro chunks
  induction chunks with
  | nil =>
    intro st sc hmem
    simp only [chunkLoop] at hmem
    exact absurd hmem (List.not_mem_nil _)
  | cons i rest ih =>
    intro st sc hmem
    have hstep := uploadChunkStep_no_delete url size (i * chunkSize) sc.head?
    simp only [chunkLoop] at hmem ⊢
    cases h1 : (uploadChunkStep url size (i * chunkSize) sc.head?).2 with
    | failed msg => simp only [h1]
    | got s b =>
      have hretry := retryPhase_no_delete url size (i * chunkSize) sc.tail 1 s b
      simp only [h1] at hmem ⊢
      cases h2 : (retryPhase url size (i * chunkSize) sc.tail 1 s b).2.1 with
      | failed msg => simp only [h2]
      | got s2 b2 =>
        simp only [h2] at hmem ⊢
        by_cases h404 : s2 = 404
        · rw [if_pos h404] at hmem
          exfalso
          rcases List.mem_append.mp hmem with h | h
          · exact hstep h
          · exact hretry h
        · rw [if_neg h404] at hmem ⊢
          by_cases h400 : 400 ≤ s2
          · rw [if_pos h400] at hmem
            exfalso
            rcases List.mem_append.mp hmem with h | h
            · exact hstep h
            · exact hretry h
          · rw [if_neg h400] at hmem ⊢
            have hin3 : UEvent.deleteURL ∈
                (chunkLoop url size rest st
                  (retryPhase url size (i * chunkSize) sc.tail 1 s b).2.2).1 := by
              rcases List.mem_append.mp hmem with h | h
              · rcases List.mem_append.mp h with h3 | h3
                · exact absurd h3 hstep
                · exact absurd h3 hretry
              · exact h
            exact ih st _ hin3

/-- Counterexample for C5 as stated: a 5 MiB (large) session whose only
chunk attempt hits a transport error is cancelled — the best-effort DELETE
is issued — yet its state is `started`, not `errored`. -/
theorem cancel_state_not_errored_cex :
    (uploadRun "https://u" 5242880 [ChunkResp.transport "connection reset"]).finalState =
      UState.started ∧
    (uploadRun "https://u" 5242880 [ChunkResp.transport "connection reset"]).finalState ≠
      UState.errored ∧
    UEvent.deleteURL ∈
      (uploadRun "https://u" 5242880 [ChunkResp.transport "connection reset"]).events ∧
    (uploadRun "https://u" 5242880 [ChunkResp.transport "connection reset"]).err =
      some "connection reset" := by
  decide

/-- C5 (amended): cancelling a large upload session issues the best-effort
`DELETE` of the upload URL, but `cancel` never touches the session state:
any large-session run whose trace carries the cancel `DELETE` ends in the
`Started` state (never `Errored`), since the state was `started` when the
cancellation happened. -/
theorem cancel_deletes_but_state_unchanged (url : String) (size : Nat)
    (sc : List ChunkResp) (hlarge : isLargeSession size = true) :
    cancelEvents size = [UEvent.deleteURL] ∧
    (UEvent.deleteURL ∈ (uploadRun url size sc).events →
      (uploadRun url size sc).finalState = UState.started) := by
  constructor
  · simp [cancelEvents, hlarge]
  · intro hmem
    unfold uploadRun at hmem ⊢
    rw [hlarge] at hmem ⊢
    rw [if_neg (by simp)] at hmem ⊢
    exact chunkLoop_cancel_state url size (List.range (nchunks size)) UState.started sc hmem

/-- Witness for C5's amended statement at a concrete cancelled run. -/
theorem cancel_deletes_but_state_unchanged_witness :
    cancelEvents 5242880 = [UEvent.deleteURL] ∧
    (uploadRun "https://u" 5242880 [ChunkResp.transport "refused"]).finalState =
      UState.started := by
  have h := cancel_deletes_but_state_unchanged "https://u" 5242880
    [ChunkResp.transport "refused"] (by decide)
  exact ⟨h.1, h.2 (by decide)⟩

/-- C6: when the upload of a local-ID file fails with an error carrying
`nameAlreadyExists`, `remoteID` fetches the parent's children, adopts the
remote ID of the first child whose name matches, re-keys every inode-table
index through `MoveID` (the local-ID is gone from all of them), and returns
the adopted remote ID with a nil error. -/
theorem remoteID_adopts_on_name_conflict (tbl : InodeTable) (i : Inode)
    (e : String) (children : List (String × String)) (c : String × String)
    (hfile : i.isDir = false) (hlocal : isLocalID i.id = true)
    (hconflict : strContains e "nameAlreadyExists" = true)
    (hfind : children.find? (fun x => x.1 == i.name) = some c)
    (hremote : isLocalID c.2 = false) :
    (remoteID tbl i true none (Except.error e) (Except.ok children)).id = c.2 ∧
    (remoteID tbl i true none (Except.error e) (Except.ok children)).err = none ∧
    (∀ p ∈ (remoteID tbl i true none (Except.error e) (Except.ok children)).tbl.byID,
      p.1 ≠ i.id) ∧
    (∀ p ∈ (remoteID tbl i true none (Except.error e) (Except.ok children)).tbl.childIdx,
      p.2 ≠ i.id) ∧
    (∀ p ∈ (remoteID tbl i true none (Except.error e) (Except.ok children)).tbl.byNodeID,
      p.2 ≠ i.id) := by
  have hne : c.2 ≠ i.id := by
    intro h
    rw [h, hlocal] at hremote
    cases hremote
  have hout : remoteID tbl i true none (Except.error e) (Except.ok children) =
      ⟨c.2, none, moveID tbl i.id c.2, i⟩ := by
    unfold remoteID
    rw [if_neg (by simp [hfile])]
    rw [if_pos (by simp [hlocal])]
    simp only [hconflict, if_true, hfind]
  rw [hout]
  refine ⟨rfl, rfl, ?_, ?_, ?_⟩
  · intro p hp
    rcases List.mem_map.mp hp with ⟨q, hq, rfl⟩
    by_cases hq1 : q.1 = i.id
    · rw [if_pos hq1]
      exact hne
    · rw [if_neg hq1]
      exact hq1
  · intro p hp
    rcases List.mem_map.mp hp with ⟨q, hq, rfl⟩
    by_cases hq2 : q.2 = i.id
    · rw [if_pos hq2]
      exact hne
    · rw [if_neg hq2]
      exact hq2
  · intro p hp
    rcases List.mem_map.mp hp with ⟨q, hq, rfl⟩
    by_cases hq2 : q.2 = i.id
    · rw [if_pos hq2]
      exact hne
    · rw [if_neg hq2]
      exact hq2

/-- Witness for C6: a concrete table holding the local-ID "local-9" in all
three indices; the conflicting upload adopts "remoteA" and the local-ID
disappears from every index. -/
theorem remoteID_adopts_on_name_conflict_witness :
    (remoteID
        ⟨[("local-9", 0)], [(("parent1", "a.txt"), "local-9")], [(7, "local-9")]⟩
        { id := "local-9", name := "a.txt", parentID := "parent1" }
        true none (Except.error "HTTP 409 - nameAlreadyExists: name exists")
        (Except.ok [("b.txt", "remoteB"), ("a.txt", "remoteA")])).id = "remoteA" ∧
    (remoteID
        ⟨[("local-9", 0)], [(("parent1", "a.txt"), "local-9")], [(7, "local-9")]⟩
        { id := "local-9", name := "a.txt", parentID := "parent1" }
        true none (Except.error "HTTP 409 - nameAlreadyExists: name exists")
        (Except.ok [("b.txt", "remoteB"), ("a.txt", "remoteA")])).tbl =
      ⟨[("remoteA", 0)], [(("parent1", "a.txt"), "remoteA")], [(7, "remoteA")]⟩ := by
  have h := remoteID_adopts_on_name_conflict
    ⟨[("local-9", 0)], [(("parent1", "a.txt"), "local-9")], [(7, "local-9")]⟩
    { id := "local-9", name := "a.txt", parentID := "parent1" }
    "HTTP 409 - nameAlreadyExists: name exists"
    [("b.txt", "remoteB"), ("a.txt", "remoteA")] ("a.txt", "remoteA")
    rfl (by decide) (by decide) (by decide) (by decide)
  exact ⟨h.1, by decide⟩

theorem rangesFrom_succ (i k : Nat) :
    rangesFrom i (k + 1) =
      (i * downloadChunkSize, i * downloadChunkSize + downloadChunkSize - 1) ::
        rangesFrom (i + 1) k := by
  unfold rangesFrom
  rw [List.range_succ_eq_map]
  simp only [List.map_cons, Nat.add_zero, List.map_map, List.cons.injEq, true_and]
  apply List.map_congr_left
  intro j hj
  simp only [Function.comp_apply, Nat.succ_eq_add_one]
  have h : i + (j + 1) = i + 1 + j := by omega
  rw [h]

/-- `issuedRanges` is `rangesFrom` started at iteration 0. -/
theorem issuedRanges_eq_rangesFrom (size : Nat) :
    issuedRanges size = rangesFrom 0 (size / downloadChunkSize + 1) := by
  unfold issuedRanges rangesFrom
  apply List.map_congr_left
  intro j hj
  simp only [Nat.zero_add]

/-- A range list that scans as an exact cover only contains ranges starting
inside the file. -/
theorem coverScan_bounds (size : Nat) :
    ∀ (rs : List (Nat × Nat)) (cur : Nat), coverScan size cur rs = true →
      ∀ r ∈ rs, r.1 < size := by
  intro rs
  induction rs with
  | nil =>
    intro cur h r hr
    exact absurd hr (List.not_mem_nil _)
  | cons a rest ih =>
    intro cur h r hr
    obtain ⟨s, e⟩ := a
    simp only [coverScan, Bool.and_eq_true, beq_iff_eq, decide_eq_true_eq] at h
    rcases List.mem_cons.mp hr with hr1 | hr2
    · subst hr1
      exact h.1.2
    · exact ih _ h.2 r hr2

/-- `k ≥ 1` consecutive chunk-size ranges starting at iteration `i` tile
`[i*chunk, size)` exactly when `size` lies inside the last range. -/
theorem coverScan_tiles (size : Nat) :
    ∀ (k i : Nat), 1 ≤ k →
      (i + k - 1) * downloadChunkSize < size →
      size ≤ (i + k) * downloadChunkSize →
      coverScan size (i * downloadChunkSize) (rangesFrom i k) = true := by
  intro k
  induction k with
  | zero =>
    intro i h1 _ _
    exact absurd h1 (by omega)
  | succ k ih =>
    intro i h1 hlo hhi
    rw [rangesFrom_succ]
    simp only [coverScan, beq_self_eq_true, Bool.true_and, Bool.and_eq_true,
      decide_eq_true_eq]
    constructor
    · simp only [downloadChunkSize] at hlo ⊢
      omega
    · have harith : i * downloadChunkSize + downloadChunkSize - 1 + 1 =
          (i + 1) * downloadChunkSize := by
        simp only [downloadChunkSize]
        omega
      rw [harith]
      cases k with
      | zero =>
        have hmin : min ((i + 1) * downloadChunkSize) size = size := by
          simp only [downloadChunkSize] at hhi ⊢
          omega
        rw [hmin]
        simp [rangesFrom, coverScan]
      | succ k2 =>
        have hmin : min ((i + 1) * downloadChunkSize) size =
            (i + 1) * downloadChunkSize := by
          simp only [downloadChunkSize] at hlo ⊢
          omega
        rw [hmin]
        apply ih (i + 1) (by omega) ?_ ?_
        · simp only [downloadChunkSize] at hlo ⊢
          omega
        · simp only [downloadChunkSize] at hhi ⊢
          omega

/-- Joining `k` chunk-size slices of `l` starting at iteration `i` yields
everything of `l` from byte `i*chunk` on, provided `l` ends inside them. -/
theorem joinChunks (l : List Nat) :
    ∀ (k i : Nat), l.length ≤ (i + k) * downloadChunkSize →
      (List.map (fun j => (l.drop ((i + j) * downloadChunkSize)).take downloadChunkSize)
        (List.range k)).flatten = l.drop (i * downloadChunkSize) := by
  intro k
  induction k with
  | zero =>
    intro i hlen
    simp only [List.range_zero, List.map_nil, List.flatten_nil]
    symm
    apply List.drop_eq_nil_of_le
    simp only [downloadChunkSize] at hlen ⊢
    omega
  | succ k ih =>
    intro i hlen
    rw [List.range_succ_eq_map]
    simp only [List.map_cons, Nat.add_zero, List.map_map, List.flatten_cons]
    have hmap : List.map
        ((fun j => (l.drop ((i + j) * downloadChunkSize)).take downloadChunkSize) ∘ Nat.succ)
        (List.range k) =
        List.map (fun j => (l.drop ((i + 1 + j) * downloadChunkSize)).take downloadChunkSize)
        (List.range k) := by
      apply List.map_congr_left
      intro j hj
      simp only [Function.comp_apply, Nat.succ_eq_add_one]
      have h : i + (j + 1) = i + 1 + j := by omega
      rw [h]
    have hih : (List.map
        (fun j => (l.drop ((i + 1 + j) * downloadChunkSize)).take downloadChunkSize)
        (List.range k)).flatten = l.drop ((i + 1) * downloadChunkSize) := by
      apply ih (i + 1)
      simp only [downloadChunkSize] at hlen ⊢
      omega
    rw [hmap, hih]
    have h2 : l.drop ((i + 1) * downloadChunkSize) =
        (l.drop (i * downloadChunkSize)).drop downloadChunkSize := by
      rw [List.drop_drop]
      have h3 : i * downloadChunkSize + downloadChunkSize = (i + 1) * downloadChunkSize := by
        simp only [downloadChunkSize]
        omega
      rw [h3]
    rw [h2, List.take_append_drop]

/-- A loop over ranges against a server that always replies concatenates
the replies in order with no error. -/
theorem streamLoop_ok (serve : Nat × Nat → Except String (List Nat))
    (f : Nat × Nat → List Nat) (hserve : ∀ r, serve r = Except.ok (f r)) :
    ∀ rs, streamLoop serve rs = ((rs.map f).flatten, none) := by
  intro rs
  induction rs with
  | nil => rfl
  | cons r rest ih =>
    simp only [streamLoop, hserve r, ih, List.map_cons, List.flatten_cons]

/-- C9 (amended): items of size at most 10 MiB are fetched in a single
request; larger items are fetched as successive 10 MiB byte-range chunks
concatenated in order — when the size is not an exact multiple of 10 MiB
the issued ranges cover exactly `[0, size)` and a clipping range server
reassembles the content; when the size is an exact multiple, an additional
range starting at byte `size` (entirely beyond the end) is also issued, so
the issued ranges do not cover `[0, size)` exactly. -/
theorem download_ranges_spec (size : Nat) (content : List Nat)
    (hlen : content.length = size) :
    (size ≤ downloadChunkSize →
      getItemContentStream size (Except.ok content) (clipServe content) = (content, none)) ∧
    (downloadChunkSize < size → size % downloadChunkSize ≠ 0 →
      rangesCoverExactly (issuedRanges size) size = true ∧
      getItemContentStream size (Except.ok content) (clipServe content) = (content, none)) ∧
    (downloadChunkSize < size → size % downloadChunkSize = 0 →
      (size, size + downloadChunkSize - 1) ∈ issuedRanges size ∧
      rangesCoverExactly (issuedRanges size) size = false) := by
  refine ⟨?_, ?_, ?_⟩
  · intro hle
    unfold getItemContentStream
    rw [if_pos hle]
  · intro hgt hmod
    have hdm := Nat.div_add_mod size downloadChunkSize
    have hmodlt : size % downloadChunkSize < downloadChunkSize :=
      Nat.mod_lt _ (by decide)
    constructor
    · rw [rangesCoverExactly, issuedRanges_eq_rangesFrom]
      have h := coverScan_tiles size (size / downloadChunkSize + 1) 0
        (Nat.le_add_left 1 _)
        (by simp only [downloadChunkSize] at hdm hmodlt hmod ⊢; omega)
        (by simp only [downloadChunkSize] at hdm hmodlt ⊢; omega)
      simpa using h
    · unfold getItemContentStream
      rw [if_neg (by omega)]
      rw [streamLoop_ok (clipServe content)
        (fun r => (content.drop r.1).take (r.2 + 1 - r.1)) (fun r => rfl)]
      have hmap : (issuedRanges size).map
          (fun r => (content.drop r.1).take (r.2 + 1 - r.1)) =
          (List.range (size / downloadChunkSize + 1)).map
            (fun j => (content.drop ((0 + j) * downloadChunkSize)).take downloadChunkSize) := by
        unfold issuedRanges
        rw [List.map_map]
        apply List.map_congr_left
        intro j hj
        simp only [Function.comp_apply]
        have h1 : j * downloadChunkSize + downloadChunkSize - 1 + 1 - j * downloadChunkSize =
            downloadChunkSize := by
          simp only [downloadChunkSize]
          omega
        have h2 : (0 + j) * downloadChunkSize = j * downloadChunkSize := by
          rw [Nat.zero_add]
        rw [h1, h2]
      rw [hmap, joinChunks content (size / downloadChunkSize + 1) 0
        (by simp only [downloadChunkSize] at hdm hmodlt hlen ⊢; omega)]
      rw [Nat.zero_mul, List.drop_zero]
  · intro hgt hmod
    have hq : size / downloadChunkSize * downloadChunkSize = size :=
      Nat.div_mul_cancel (Nat.dvd_of_mod_eq_zero hmod)
    have hmem : (size, size + downloadChunkSize - 1) ∈ issuedRanges size := by
      unfold issuedRanges
      apply List.mem_map.mpr
      refine ⟨size / downloadChunkSize, List.mem_range.mpr (Nat.lt_succ_self _), ?_⟩
      show (size / downloadChunkSize * downloadChunkSize,
        size / downloadChunkSize * downloadChunkSize + downloadChunkSize - 1) =
        (size, size + downloadChunkSize - 1)
      rw [hq]
    refine ⟨hmem, ?_⟩
    by_contra hcov
    rw [Bool.not_eq_false] at hcov
    have hb := coverScan_bounds size (issuedRanges size) 0 hcov
      (size, size + downloadChunkSize - 1) hmem
    have hb2 : size < size := hb
    omega

/-- Witness for C9's amended statement: an 10 MiB + 1 byte item takes the
multipart path, its two issued ranges cover `[0, size)` exactly, and the
loop reassembles the content. -/
theorem download_ranges_spec_witness :
    rangesCoverExactly (issuedRanges (downloadChunkSize + 1)) (downloadChunkSize + 1) = true ∧
    getItemContentStream (downloadChunkSize + 1)
        (Except.ok (List.replicate (downloadChunkSize + 1) 0))
        (clipServe (List.replicate (downloadChunkSize + 1) 0)) =
      (List.replicate (downloadChunkSize + 1) 0, none) := by
  have h := download_ranges_spec (downloadChunkSize + 1)
    (List.replicate (downloadChunkSize + 1) 0) (by simp)
  exact h.2.1 (by omega) (by decide)

/-- Counterexample for C9 as stated: a 20 MiB item (an exact multiple of
the 10 MiB chunk) takes the multipart path but issues three ranges, the
last starting at byte `size` — beyond the end of the item — so the issued
ranges do not cover exactly `[0, size)`. -/
theorem download_ranges_exact_multiple_cex :
    downloadChunkSize < 2 * downloadChunkSize ∧
    (issuedRanges (2 * downloadChunkSize)).length = 3 ∧
    rangesCoverExactly (issuedRanges (2 * downloadChunkSize)) (2 * downloadChunkSize) = false ∧
    (2 * downloadChunkSize, 2 * downloadChunkSize + downloadChunkSize - 1) ∈
      issuedRanges (2 * downloadChunkSize) := by
  decide

end Onedriver
